import Mathlib

/-
Verification development for the goro HTTP router.

The repository sources available are router.go, common.go, context.go, the
chain/filter file and the param-helper file.  The trie (Tree/Node), the
Matcher, the Route type and the pattern parser are part of this repository
but their source files are absent; those parts are modelled from the
specification (spec.md sections 3, 4.1, 4.2 and 4.3), as marked on each
definition.  Everything else is a direct shallow embedding of the Go code.
-/

set_option autoImplicit false

namespace Goro

/-- Association-list read, modelling a Go map read (`m[k]`).  Returns the
value of the first entry whose key equals `k`. -/
def assocGet {α : Type} : List (String × α) → String → Option α
  | [], _ => none
  | (k', v) :: rest, k => if k' = k then some v else assocGet rest k

/-- Association-list write, modelling a Go map assignment (`m[k] = v`):
replaces the first entry with key `k`, or appends a new entry. -/
def assocPut {α : Type} : List (String × α) → String → α → List (String × α)
  | [], k, v => [(k, v)]
  | (k', v') :: rest, k, v =>
    if k' = k then (k, v) :: rest else (k', v') :: assocPut rest k v

/-- ASCII upper-casing of a single character (models `strings.ToUpper`
character-wise). -/
def upChar (c : Char) : Char :=
  if 'a' ≤ c ∧ c ≤ 'z' then Char.ofNat (c.toNat - 32) else c

/-- ASCII upper-casing of a string (models `strings.ToUpper`). -/
def upper (s : String) : String := ⟨s.data.map upChar⟩

/-- Whether a string begins with the `$` variable marker (models
`strings.HasPrefix(s, "$")`). -/
def dollarFirst (s : String) : Bool :=
  match s.data with
  | '$' :: _ => true
  | _ => false

/-- Splits a character list at `/` separators, collapsing empty tokens.
`acc` holds the characters of the token being read, in reverse. -/
def splitAux : List Char → List Char → List String
  | [], acc =>
    match acc with
    | [] => []
    | _ => [⟨acc.reverse⟩]
  | c :: cs, acc =>
    if c = '/' then
      match acc with
      | [] => splitAux cs []
      | _ => ⟨acc.reverse⟩ :: splitAux cs []
    else
      splitAux cs (c :: acc)

/-- Path tokenisation: split on `/` with empty tokens collapsed
(spec 4.3: the path is "already split into tokens by `/`, empty tokens
collapsed"). -/
def pathTokens (p : String) : List String := splitAux p.data []

/-- Joins tokens with `/` (used for the captured catch-all value,
spec 4.3 step 4: "all remaining tokens (joined by `/`)"). -/
def joinSlash : List String → String
  | [] => ""
  | [t] => t
  | t :: ts => t ++ "/" ++ joinSlash ts

/-- RouteComponentType from common.go: Fixed, Wildcard (named parameter)
and CatchAll path components. -/
inductive RouteComponentType where
  | fixed
  | wildcard
  | catchAll
deriving DecidableEq

/-- Modelled from the spec: the Route record (route.go is not in src/).
Spec 3: "HTTP method (normalized upper-case), raw path pattern, ...,
handler reference".  The handler is represented by an optional numeric
tag (presence and identity only; Go function values carry no data we
inspect). -/
structure Route where
  method : String
  pathFormat : String
  handler : Option Nat
deriving DecidableEq

/-- Modelled from the spec: a parsed pattern segment (spec 3, "Segment"):
Fixed literal, Named parameter, or terminal Catch-all. -/
inductive Seg where
  | fixed (lit : String)
  | named (nm : String)
  | catchAll (nm : String)
deriving DecidableEq

/-- Modelled from the spec: a trie Node (node.go is not in src/).  Spec 3:
component type, matching key, a mapping from next literal segment to child
node, at most one Named child, at most one Catch-all child, and the routes
terminating at this node. -/
inductive Node where
  | mk (nodeType : RouteComponentType) (key : String)
       (children : List (String × Node))
       (wildChild : Option Node)
       (caChild : Option Node)
       (routes : List Route)

/-- Component type of a node. -/
def Node.nodeType : Node → RouteComponentType
  | .mk t _ _ _ _ _ => t

/-- Matching key of a node (literal for Fixed, parameter name for
Named/Catch-all). -/
def Node.key : Node → String
  | .mk _ k _ _ _ _ => k

/-- Fixed children of a node, keyed by their literal segment. -/
def Node.children : Node → List (String × Node)
  | .mk _ _ ch _ _ _ => ch

/-- The (at most one) Named child of a node. -/
def Node.wildChild : Node → Option Node
  | .mk _ _ _ w _ _ => w

/-- The (at most one) Catch-all child of a node. -/
def Node.caChild : Node → Option Node
  | .mk _ _ _ _ ca _ => ca

/-- Routes registered exactly at this node. -/
def Node.routes : Node → List Route
  | .mk _ _ _ _ _ rs => rs

/-- Trie traversal primitive (spec 4.2): get the Fixed child for a
literal token. -/
def Node.fixedChild (n : Node) (lit : String) : Option Node :=
  assocGet n.children lit

/-- Trie traversal primitive (spec 4.2): get the route bound at this node
for the given HTTP method. -/
def Node.routeForMethod (n : Node) (meth : String) : Option Route :=
  n.routes.find? (fun r => decide (r.method = meth))

/-- Node with its route list replaced. -/
def Node.withRoutes : Node → List Route → Node
  | .mk t k ch w ca _, rs => .mk t k ch w ca rs

/-- Node with the Fixed child for `lit` replaced (or added). -/
def Node.withFixedChild : Node → String → Node → Node
  | .mk t k ch w ca rs, lit, c => .mk t k (assocPut ch lit c) w ca rs

/-- Node with its Named child replaced. -/
def Node.withWild : Node → Node → Node
  | .mk t k ch _ ca rs, c => .mk t k ch (some c) ca rs

/-- Node with its Catch-all child replaced. -/
def Node.withCA : Node → Node → Node
  | .mk t k ch w _ rs, c => .mk t k ch w (some c) rs

/-- A fresh node with no children and no routes. -/
def newNode (t : RouteComponentType) (k : String) : Node :=
  .mk t k [] none none []

/-- The empty trie: a synthetic root node (the Tree's collection of root
nodes is represented as the children of this node; routes for the root
path `/` live on the node itself). -/
def rootNode : Node := newNode .fixed ""

/-- Modelled from the spec: the registration-time error taxonomy
(spec 7): MalformedPattern and ConflictingRoute. -/
inductive RegErr where
  | malformedPattern
  | conflictingRoute
deriving DecidableEq

/-- Modelled from the spec: bind a route at its terminal node (spec 4.2:
"at the terminal node, bind method to route; rebinding an existing method
is rejected"). -/
def bindRoute (n : Node) (r : Route) : Except RegErr Node :=
  if (n.routeForMethod r.method).isSome then .error .conflictingRoute
  else .ok (n.withRoutes (n.routes ++ [r]))

/-- Modelled from the spec: trie insertion (spec 4.2 Insert), walking and
creating nodes segment by segment.  A second, differently-named parameter
at the same depth is a ConflictingRoute error; a Catch-all must be the
last segment. -/
def insertSegs : Node → List Seg → Route → Except RegErr Node
  | n, [], r => bindRoute n r
  | n, .fixed lit :: segs, r =>
    match n.fixedChild lit with
    | some c => (insertSegs c segs r).map (fun c2 => n.withFixedChild lit c2)
    | none => (insertSegs (newNode .fixed lit) segs r).map
        (fun c2 => n.withFixedChild lit c2)
  | n, .named x :: segs, r =>
    match n.wildChild with
    | some c =>
      if c.key = x then (insertSegs c segs r).map n.withWild
      else .error .conflictingRoute
    | none => (insertSegs (newNode .wildcard x) segs r).map n.withWild
  | n, .catchAll x :: segs, r =>
    match segs with
    | [] =>
      match n.caChild with
      | some c =>
        if c.key = x then (bindRoute c r).map n.withCA
        else .error .conflictingRoute
      | none => (bindRoute (newNode .catchAll x) r).map n.withCA
    | _ :: _ => .error .malformedPattern

/-- Modelled from the spec: classification of one pattern token
(spec 4.1): `:name` is a Named segment, `*name` a Catch-all, `$var` is
resolved against the variable table (unresolved is a registration error),
anything else is a Fixed literal. -/
def classifyToken (vars : List (String × String)) (tok : String) :
    Except RegErr Seg :=
  match tok.data with
  | ':' :: rest => .ok (.named ⟨rest⟩)
  | '*' :: rest => .ok (.catchAll ⟨rest⟩)
  | '$' :: _ =>
    match assocGet vars tok with
    | some v => .ok (.fixed v)
    | none => .error .malformedPattern
  | _ => .ok (.fixed tok)

/-- Modelled from the spec: parse a token list into segments, rejecting a
Catch-all in non-terminal position (spec 4.1). -/
def parseTokens (vars : List (String × String)) :
    List String → Except RegErr (List Seg)
  | [] => .ok []
  | tok :: toks => do
    let s ← classifyToken vars tok
    match s with
    | .catchAll x =>
      if toks.isEmpty then .ok [Seg.catchAll x] else .error .malformedPattern
    | _ => do
      let rest ← parseTokens vars toks
      .ok (s :: rest)

/-- Parameter and catch-all names declared by a segment list. -/
def segNames : List Seg → List String
  | [] => []
  | .fixed _ :: segs => segNames segs
  | .named x :: segs => x :: segNames segs
  | .catchAll x :: segs => x :: segNames segs

/-- String membership in a list. -/
def memStr (x : String) : List String → Bool
  | [] => false
  | y :: ys => if y = x then true else memStr x ys

/-- Whether a list of names contains a duplicate. -/
def hasDup : List String → Bool
  | [] => false
  | x :: xs => if memStr x xs then true else hasDup xs

/-- Modelled from the spec: the Segment Model contract (spec 4.1): given
a raw pattern string and the variable table, produce an ordered segment
sequence or fail with MalformedPattern (catch-all not terminal,
unresolved variable, duplicate parameter names). -/
def parsePattern (vars : List (String × String)) (pattern : String) :
    Except RegErr (List Seg) := do
  let segs ← parseTokens vars (pathTokens pattern)
  if hasDup (segNames segs) then .error .malformedPattern else .ok segs

/-- Modelled from the spec: the Match result (spec 3): the node holding
the matched routes, the captured parameters in declaration order, and the
captured catch-all value (empty string if none). -/
structure MatchResult where
  node : Node
  params : List (String × String)
  catchAllValue : String

/-- A candidate-stack entry (spec 4.3 step 1): a Catch-all child node
together with the parameters captured and the tokens remaining when its
parent was visited. -/
def CAEntry : Type := Node × List (String × String) × List String

/-- Pushes the current node's Catch-all child (if any) onto the fallback
stack before descending (spec 4.3 step 5 backtracks to the nearest
ancestor with a Catch-all child). -/
def pushCA (n : Node) (params : List (String × String))
    (ts : List String) (stack : List CAEntry) : List CAEntry :=
  match n.caChild with
  | some c => (c, params, ts) :: stack
  | none => stack

/-- Takes the nearest pending Catch-all candidate as the match
(spec 4.3 step 5). -/
def caFallback : List CAEntry → Option MatchResult
  | [] => none
  | (c, ps, rem) :: _ => some ⟨c, ps, joinSlash rem⟩

/-- Modelled from the spec: the Matcher traversal (spec 4.3, steps 1-7):
at each token prefer the Fixed child, then the Named child (binding the
token to its parameter name), then the Catch-all child (consuming all
remaining tokens joined by `/`).  On a dead end, with
`alwaysUseFirstMatch` false and `fallbackToCatchAll` enabled, fall back
to the nearest Catch-all ancestor.  At the end of the tokens, a node with
routes is returned immediately when `alwaysUseFirstMatch` is set or the
method is bound; otherwise, with `fallbackToCatchAll` enabled, a pending
Catch-all ancestor is preferred, else the node is returned as a
structural match and the caller distinguishes method-not-allowed. -/
def matchNode (aF fCA : Bool) (meth : String) :
    Node → List String → List (String × String) → List CAEntry →
    Option MatchResult
  | n, [], params, stack =>
    if n.routes.isEmpty then
      (if !aF && fCA then caFallback stack else none)
    else if aF then some ⟨n, params, ""⟩
    else if (n.routeForMethod meth).isSome then some ⟨n, params, ""⟩
    else if fCA then some ((caFallback stack).getD ⟨n, params, ""⟩)
    else some ⟨n, params, ""⟩
  | n, t :: ts, params, stack =>
    let stack2 := pushCA n params (t :: ts) stack
    match n.fixedChild t with
    | some c => matchNode aF fCA meth c ts params stack2
    | none =>
      match n.wildChild with
      | some c => matchNode aF fCA meth c ts (params ++ [(c.key, t)]) stack2
      | none =>
        match n.caChild with
        | some c => some ⟨c, params, joinSlash (t :: ts)⟩
        | none => if !aF && fCA then caFallback stack else none

/-- Modelled from the spec: `MatchPathToRoute(method, path)` (spec 4.3):
tokenises the already-cleaned path and runs the trie traversal from the
root with empty captures and an empty candidate stack. -/
def matchPathToRoute (aF fCA : Bool) (meth path : String) (tree : Node) :
    Option MatchResult :=
  matchNode aF fCA meth tree (pathTokens path) [] []

/-- A route registration request: method, raw pattern and a handler tag. -/
structure Reg where
  method : String
  pattern : String
  tag : Nat

/-- Modelled from the spec: building the Route record for a registration
(spec 3: method normalized upper-case; the raw pattern is kept as
PathFormat). -/
def mkRoute (g : Reg) : Route :=
  ⟨upper g.method, g.pattern, some g.tag⟩

/-- Modelled from the spec: the Registration API (spec 6):
`Insert(method, patternString, handler, variableTable)`: parse the
pattern against the variable table, then insert into the trie. -/
def registerRoute (vars : List (String × String)) (t : Node) (g : Reg) :
    Except RegErr Node := do
  let segs ← parsePattern vars g.pattern
  insertSegs t segs (mkRoute g)

/-- Registers a list of routes left to right, stopping at the first
error (spec 7: registration errors are surfaced immediately). -/
def registerAll (vars : List (String × String)) :
    Node → List Reg → Except RegErr Node
  | t, [] => .ok t
  | t, g :: gs => do registerAll vars (← registerRoute vars t g) gs

/-- The trie a router holds after a registration attempt: the new trie on
success, the unchanged trie on error (spec 7: "registration fails
atomically (no partial insert)"). -/
def registerOrKeep (vars : List (String × String)) (t : Node) (g : Reg) :
    Node :=
  match registerRoute vars t g with
  | .ok t2 => t2
  | .error _ => t

/-- Extracts the trie from a successful registration, defaulting to the
empty root (used only to name concrete example tries). -/
def forceTree (e : Except RegErr Node) : Node :=
  match e with
  | .ok t => t
  | .error _ => rootNode

/-- Follows a pattern's segment sequence through the trie: Fixed by its
literal child, Named by the Named child with the matching name, Catch-all
(terminal) by the Catch-all child.  Returns the node the pattern
terminates at.  This is the structural-reachability reading of
registration, used to connect Insert with the Matcher. -/
def segsFollow : Node → List Seg → Option Node
  | n, [] => some n
  | n, .fixed lit :: segs =>
    match n.fixedChild lit with
    | some c => segsFollow c segs
    | none => none
  | n, .named x :: segs =>
    match n.wildChild with
    | some c => if c.key = x then segsFollow c segs else none
    | none => none
  | n, .catchAll x :: segs =>
    match segs, n.caChild with
    | [], some c => if c.key = x then some c else none
    | _, _ => none

/-- Follows a segment sequence and a concrete token instantiation of it
through the trie simultaneously, additionally requiring that no more
specific sibling shadows the chosen child: at a Named segment the token
must not also be a Fixed child key, and at the Catch-all segment the
first remaining token must not be a Fixed child key and there must be no
Named child.  Returns the node the instantiated pattern terminates at. -/
def followOK : Node → List Seg → List String → Option Node
  | n, [], ts =>
    match ts with
    | [] => some n
    | _ :: _ => none
  | n, .fixed lit :: segs, ts =>
    match ts with
    | [] => none
    | t :: ts2 =>
      if t = lit then
        match n.fixedChild lit with
        | some c => followOK c segs ts2
        | none => none
      else none
  | n, .named _ :: segs, ts =>
    match ts with
    | [] => none
    | t :: ts2 =>
      if (n.fixedChild t).isNone then
        match n.wildChild with
        | some c => followOK c segs ts2
        | none => none
      else none
  | n, .catchAll _ :: segs, ts =>
    match segs, ts with
    | [], t :: _ =>
      if (n.fixedChild t).isNone && (n.wildChild).isNone then n.caChild
      else none
    | _, _ => none

/-- Whether a token list is a literal instantiation of a segment list:
Fixed segments are matched by their literal, each Named segment by one
arbitrary token, and a terminal Catch-all by one or more remaining
tokens. -/
def instOK : List Seg → List String → Bool
  | [], [] => true
  | .fixed lit :: segs, t :: ts => if t = lit then instOK segs ts else false
  | .named _ :: segs, _ :: ts => instOK segs ts
  | .catchAll _ :: segs, ts => segs.isEmpty && !ts.isEmpty
  | _, _ => false

/-- A readable summary of a match: the path formats of the routes at the
matched node, the captured parameters, and the catch-all value. -/
def summarize (M : MatchResult) :
    List String × List (String × String) × String :=
  (M.node.routes.map Route.pathFormat, M.params, M.catchAllValue)

/-- The router configuration fields of router.go that govern matching:
`alwaysUseFirstMatch`, `methodNotAllowedIsError`, and the attached
matcher's `FallbackToCatchAll` flag. -/
structure RouterState where
  alwaysUseFirstMatch : Bool
  methodNotAllowedIsError : Bool
  matcherFallbackToCatchAll : Bool

/-- NewRouter (router.go lines 71-92): defaults `alwaysUseFirstMatch` to
false and `methodNotAllowedIsError` to true, then sets the matcher's
`FallbackToCatchAll` to `alwaysUseFirstMatch == false &&
methodNotAllowedIsError == false`. -/
def newRouter : RouterState :=
  { alwaysUseFirstMatch := false
    methodNotAllowedIsError := true
    matcherFallbackToCatchAll := (false == false && true == false) }

/-- SetAlwaysUseFirstMatch (router.go lines 110-114): stores the flag and
recomputes the matcher's `FallbackToCatchAll`. -/
def setAlwaysUseFirstMatch (r : RouterState) (b : Bool) : RouterState :=
  let r2 := { r with alwaysUseFirstMatch := b }
  { r2 with matcherFallbackToCatchAll :=
      (r2.alwaysUseFirstMatch == false && r2.methodNotAllowedIsError == false) }

/-- SetMethodNotAllowedIsError (router.go lines 118-122): stores the flag
and recomputes the matcher's `FallbackToCatchAll`. -/
def setMethodNotAllowedIsError (r : RouterState) (b : Bool) : RouterState :=
  let r2 := { r with methodNotAllowedIsError := b }
  { r2 with matcherFallbackToCatchAll :=
      (r2.alwaysUseFirstMatch == false && r2.methodNotAllowedIsError == false) }

/-- A call to one of the two matcher-configuration setters. -/
inductive ConfigOp where
  | setAlways (b : Bool)
  | setMNA (b : Bool)

/-- Applies one configuration call to the router state. -/
def applyOp (r : RouterState) : ConfigOp → RouterState
  | .setAlways b => setAlwaysUseFirstMatch r b
  | .setMNA b => setMethodNotAllowedIsError r b

/-- Applies a sequence of configuration calls, left to right. -/
def applyOps (r : RouterState) (ops : List ConfigOp) : RouterState :=
  ops.foldl applyOp r

/-- The externally visible outcome ServeHTTP (router.go lines 208-275)
decides for one request: a global handler call, a static file served, an
error emitted through emitError (message and status code), or a route
handler call.  Handlers are identified by numeric tags. -/
inductive ServeOutcome where
  | globalHandled (tag : Nat)
  | staticServed
  | errorEmitted (msg : String) (code : Nat)
  | handled (tag : Nat)
deriving DecidableEq

/-- What ServeHTTP does for one request: whether the before-filters run,
the dispatch outcome, and whether the after-filters run. -/
structure ServeResult where
  beforeFiltersRun : Bool
  outcome : ServeOutcome
  afterFiltersRun : Bool
deriving DecidableEq

/-- SetGlobalHandler (router.go lines 185-187): stores the handler under
the upper-cased method. -/
def setGlobalHandler (globals : List (String × Nat)) (meth : String)
    (tag : Nat) : List (String × Nat) :=
  assocPut globals (upper meth) tag

/-- ServeHTTP (router.go lines 208-275), its dispatch decisions: run the
before-filters; upper-case the method; if a global handler is registered
for it, call it and return; otherwise consult the match result (the value
`MatchPathToRoute` returned for the cleaned path): a nil match or a
matched node with zero routes falls through to static files and then to a
404; a node with routes but none for the method is a 405; a matched
catch-all node prefers an existing static file; a route without a handler
is a 500; otherwise the route handler runs and then the after-filters.
The static-file probe (an os.Stat side effect) is abstracted as the
boolean `staticFileExists`. -/
def serveDispatch (globals : List (String × Nat)) (filtersCount : Nat)
    (meth : String) (matchRes : Option MatchResult)
    (staticFileExists : Bool) : ServeResult :=
  let before := filtersCount != 0
  let m := upper meth
  match assocGet globals m with
  | some tag => ⟨before, .globalHandled tag, false⟩
  | none =>
    match matchRes with
    | none =>
      if staticFileExists then ⟨before, .staticServed, false⟩
      else ⟨before, .errorEmitted "Not Found" 404, false⟩
    | some M =>
      if M.node.routes.isEmpty then
        if staticFileExists then ⟨before, .staticServed, false⟩
        else ⟨before, .errorEmitted "Not Found" 404, false⟩
      else
        match M.node.routeForMethod m with
        | none => ⟨before, .errorEmitted "Method Not Allowed" 405, false⟩
        | some route =>
          if M.node.nodeType = RouteComponentType.catchAll ∧ staticFileExists then
            ⟨before, .staticServed, false⟩
          else
            match route.handler with
            | none => ⟨before, .errorEmitted "No Handler defined" 500, false⟩
            | some tag => ⟨before, .handled tag, before⟩

/-- SetStringVariable (router.go lines 200-206): prepends the `$` marker
when missing and stores the value in the variable table. -/
def setStringVariable (vars : List (String × String)) (varName value : String) :
    List (String × String) :=
  let varname := if dollarFirst varName then varName else "$" ++ varName
  assocPut vars varname value

/-- FirstStringRouteParam (handler_helpers file, lines 54-61): the first
item of the slice if the slice is non-nil and non-empty, otherwise the
empty string.  A nil Go slice is modelled as `none`. -/
def firstStringRouteParam : Option (List String) → String
  | none => ""
  | some ps =>
    match ps with
    | [] => ""
    | x :: _ => x

/-- FirstRouteParam (handler_helpers file, lines 63-69): the first item
of the slice if the slice is non-nil and non-empty, otherwise nil. -/
def firstRouteParam {α : Type} : Option (List α) → Option α
  | none => none
  | some ps =>
    match ps with
    | [] => none
    | x :: _ => some x

/-- What starting a Chain does: either the first handler is invoked, or
the indexing `ch.handlers[0]` is out of range and the program panics. -/
inductive StartResult where
  | panicked
  | invoked (tag : Nat)
deriving DecidableEq

/-- The Chain record (chain file): handler index, attachment and error
flags, and the handler list (handlers identified by numeric tags; the
completion callbacks carry no data we inspect). -/
structure Chain where
  handlerIndex : Nat
  routerAttached : Bool
  routerCatchesErrors : Bool
  emitHTTPError : Bool
  handlers : List Nat

/-- NewChain (chain file, lines 64-71). -/
def newChain (hs : List Nat) : Chain :=
  { handlerIndex := 0
    routerAttached := false
    routerCatchesErrors := true
    emitHTTPError := true
    handlers := hs }

/-- Chain.resetState (chain file): resets the handler index. -/
def Chain.resetSt (ch : Chain) : Chain := { ch with handlerIndex := 0 }

/-- Chain.startChain (chain file, lines 114-117): resets state and then
unconditionally invokes `ch.handlers[0]`; on an empty handler list the
index is out of range, which panics. -/
def Chain.startCh (ch : Chain) : StartResult :=
  match ch.resetSt.handlers with
  | [] => .panicked
  | h :: _ => .invoked h

/-- Invoking the ContextHandler returned by Chain.Call (chain file,
lines 108-112): it starts the chain. -/
def Chain.callRun (ch : Chain) : StartResult := ch.startCh

/-- Invoking the ContextHandler returned by Chain.Then (chain file,
lines 98-105): it installs the completion callback and starts the chain;
the start behaviour is identical. -/
def Chain.thenRun (ch : Chain) : StartResult := ch.startCh

/-- Routes for the fixed-versus-named scenario: GET /users/active and
GET /users/:id. -/
def usersRegs : List Reg := [⟨"GET", "/users/active", 1⟩, ⟨"GET", "/users/:id", 2⟩]

/-- The trie holding GET /users/active and GET /users/:id. -/
def usersTree : Node := forceTree (registerAll [] rootNode usersRegs)

/-- The parsed segments of the pattern /users/:id. -/
def idSegs : List Seg := [Seg.fixed "users", Seg.named "id"]

/-- The match the trie of usersRegs produces for GET /users/active. -/
def ceMatch : MatchResult :=
  (matchPathToRoute false false "GET" "/users/active" usersTree).getD
    ⟨rootNode, [], ""⟩

/-- The fixed child node for the token "users" in usersTree. -/
def usersNodeA : Node := (usersTree.fixedChild "users").getD rootNode

/-- A single registration GET /users/:id used to exercise the amended
round-trip statement on a concrete input. -/
def wReg : Reg := ⟨"GET", "/users/:id", 7⟩

/-- The trie holding only wReg. -/
def wTree : Node := forceTree (registerAll [] rootNode [wReg])

/-- The node the instantiation ["users", "71"] of /users/:id terminates
at in wTree. -/
def wNode : Node := (followOK wTree idSegs ["users", "71"]).getD rootNode

/-- The catch-all scenario: GET /files/*rest. -/
def filesRegs : List Reg := [⟨"GET", "/files/*rest", 3⟩]

/-- The trie holding GET /files/*rest. -/
def filesTree : Node := forceTree (registerAll [] rootNode filesRegs)

/-- The fixed child node for the token "files" in filesTree. -/
def filesNodeF : Node := (filesTree.fixedChild "files").getD rootNode

/-- The catch-all child under /files in filesTree. -/
def filesCANode : Node := filesNodeF.caChild.getD rootNode

/-- The trie holding GET /a/:x, against which /a/:y conflicts. -/
def conflictTree : Node :=
  forceTree (registerRoute [] rootNode ⟨"GET", "/a/:x", 1⟩)

/-- The fixed child node for the token "a" in conflictTree. -/
def conflictANode : Node := (conflictTree.fixedChild "a").getD rootNode

/-- The named child :x under /a in conflictTree. -/
def conflictXNode : Node := conflictANode.wildChild.getD rootNode

/- ------------------------------------------------------------------ -/
/- Theorems.  Helper lemmas first, then one theorem per claim with its
   witness or counterexample. -/
/- ------------------------------------------------------------------ -/

@[simp]
theorem Node.key_mk (t : RouteComponentType) (k : String)
    (ch : List (String × Node)) (w ca : Option Node) (rs : List Route) :
    (Node.mk t k ch w ca rs).key = k := rfl

@[simp]
theorem Node.children_mk (t : RouteComponentType) (k : String)
    (ch : List (String × Node)) (w ca : Option Node) (rs : List Route) :
    (Node.mk t k ch w ca rs).children = ch := rfl

@[simp]
theorem Node.wildChild_mk (t : RouteComponentType) (k : String)
    (ch : List (String × Node)) (w ca : Option Node) (rs : List Route) :
    (Node.mk t k ch w ca rs).wildChild = w := rfl

@[simp]
theorem Node.caChild_mk (t : RouteComponentType) (k : String)
    (ch : List (String × Node)) (w ca : Option Node) (rs : List Route) :
    (Node.mk t k ch w ca rs).caChild = ca := rfl

@[simp]
theorem Node.routes_mk (t : RouteComponentType) (k : String)
    (ch : List (String × Node)) (w ca : Option Node) (rs : List Route) :
    (Node.mk t k ch w ca rs).routes = rs := rfl

@[simp]
theorem Node.withRoutes_key (n : Node) (rs : List Route) :
    (n.withRoutes rs).key = n.key := by cases n; rfl

@[simp]
theorem Node.withRoutes_routes (n : Node) (rs : List Route) :
    (n.withRoutes rs).routes = rs := by cases n; rfl

@[simp]
theorem Node.withRoutes_fixedChild (n : Node) (rs : List Route) (lit : String) :
    (n.withRoutes rs).fixedChild lit = n.fixedChild lit := by
  cases n; rfl

@[simp]
theorem Node.withRoutes_wildChild (n : Node) (rs : List Route) :
    (n.withRoutes rs).wildChild = n.wildChild := by cases n; rfl

@[simp]
theorem Node.withRoutes_caChild (n : Node) (rs : List Route) :
    (n.withRoutes rs).caChild = n.caChild := by cases n; rfl

@[simp]
theorem Node.withFixedChild_key (n : Node) (lit : String) (c : Node) :
    (n.withFixedChild lit c).key = n.key := by cases n; rfl

@[simp]
theorem Node.withFixedChild_routes (n : Node) (lit : String) (c : Node) :
    (n.withFixedChild lit c).routes = n.routes := by cases n; rfl

@[simp]
theorem Node.withFixedChild_children (n : Node) (lit : String) (c : Node) :
    (n.withFixedChild lit c).children = assocPut n.children lit c := by
  cases n; rfl

@[simp]
theorem Node.withFixedChild_wildChild (n : Node) (lit : String) (c : Node) :
    (n.withFixedChild lit c).wildChild = n.wildChild := by cases n; rfl

@[simp]
theorem Node.withFixedChild_caChild (n : Node) (lit : String) (c : Node) :
    (n.withFixedChild lit c).caChild = n.caChild := by cases n; rfl

@[simp]
theorem Node.withWild_key (n : Node) (c : Node) :
    (n.withWild c).key = n.key := by cases n; rfl

@[simp]
theorem Node.withWild_routes (n : Node) (c : Node) :
    (n.withWild c).routes = n.routes := by cases n; rfl

@[simp]
theorem Node.withWild_fixedChild (n : Node) (c : Node) (lit : String) :
    (n.withWild c).fixedChild lit = n.fixedChild lit := by cases n; rfl

@[simp]
theorem Node.withWild_wildChild (n : Node) (c : Node) :
    (n.withWild c).wildChild = some c := by cases n; rfl

@[simp]
theorem Node.withWild_caChild (n : Node) (c : Node) :
    (n.withWild c).caChild = n.caChild := by cases n; rfl

@[simp]
theorem Node.withCA_key (n : Node) (c : Node) :
    (n.withCA c).key = n.key := by cases n; rfl

@[simp]
theorem Node.withCA_routes (n : Node) (c : Node) :
    (n.withCA c).routes = n.routes := by cases n; rfl

@[simp]
theorem Node.withCA_fixedChild (n : Node) (c : Node) (lit : String) :
    (n.withCA c).fixedChild lit = n.fixedChild lit := by cases n; rfl

@[simp]
theorem Node.withCA_wildChild (n : Node) (c : Node) :
    (n.withCA c).wildChild = n.wildChild := by cases n; rfl

@[simp]
theorem Node.withCA_caChild (n : Node) (c : Node) :
    (n.withCA c).caChild = some c := by cases n; rfl

theorem assocGet_put_self {α : Type} (l : List (String × α)) (k : String)
    (v : α) : assocGet (assocPut l k v) k = some v := by
  induction l with
  | nil => simp [assocPut, assocGet]
  | cons p rest ih =>
    obtain ⟨k', v'⟩ := p
    by_cases h : k' = k
    · simp [assocPut, assocGet, h]
    · simp [assocPut, assocGet, h, ih]

theorem assocGet_put_other {α : Type} (l : List (String × α)) (k k' : String)
    (v : α) (h : k' ≠ k) :
    assocGet (assocPut l k v) k' = assocGet l k' := by
  have hkk : ¬ (k = k') := fun hh => h hh.symm
  induction l with
  | nil =>
    simp only [assocPut, assocGet]
    rw [if_neg hkk]
  | cons p rest ih =>
    obtain ⟨a, b⟩ := p
    simp only [assocPut]
    by_cases ha : a = k
    · rw [if_pos ha]
      simp only [assocGet]
      rw [if_neg hkk, if_neg (ha ▸ hkk)]
    · rw [if_neg ha]
      simp only [assocGet]
      by_cases hb : a = k'
      · rw [if_pos hb, if_pos hb]
      · rw [if_neg hb, if_neg hb]
        exact ih

theorem except_map_ok {γ α β : Type} (f : α → β) (e : Except γ α) (b : β) :
    e.map f = .ok b ↔ ∃ a, e = .ok a ∧ b = f a := by
  cases e <;> simp [Except.map] <;> constructor <;> intro h
  · exact h.symm
  · exact h.symm

theorem except_bind_ok {γ α β : Type} (e : Except γ α)
    (f : α → Except γ β) (b : β) :
    (e >>= f) = .ok b ↔ ∃ a, e = .ok a ∧ f a = .ok b := by
  cases e <;> simp [Bind.bind, Except.bind]

theorem applyOp_invariant (r : RouterState) (op : ConfigOp) :
    (applyOp r op).matcherFallbackToCatchAll =
      ((applyOp r op).alwaysUseFirstMatch == false &&
       (applyOp r op).methodNotAllowedIsError == false) := by
  cases op <;>
    simp [applyOp, setAlwaysUseFirstMatch, setMethodNotAllowedIsError]

theorem applyOps_invariant (ops : List ConfigOp) :
    ∀ r : RouterState,
      r.matcherFallbackToCatchAll =
        (r.alwaysUseFirstMatch == false && r.methodNotAllowedIsError == false) →
      (applyOps r ops).matcherFallbackToCatchAll =
        ((applyOps r ops).alwaysUseFirstMatch == false &&
         (applyOps r ops).methodNotAllowedIsError == false) := by
  induction ops with
  | nil => intro r h; simpa [applyOps] using h
  | cons op ops ih =>
    intro r _
    have h2 := applyOp_invariant r op
    have : applyOps r (op :: ops) = applyOps (applyOp r op) ops := by
      simp [applyOps, List.foldl]
    rw [this]
    exact ih (applyOp r op) h2

/-- C4: after NewRouter and any sequence of SetAlwaysUseFirstMatch and
SetMethodNotAllowedIsError calls, the matcher's FallbackToCatchAll flag
equals `alwaysUseFirstMatch == false && methodNotAllowedIsError == false`;
in particular the NewRouter defaults give FallbackToCatchAll = false. -/
theorem fallbackFlagDerived :
    newRouter.matcherFallbackToCatchAll = false ∧
    ∀ ops : List ConfigOp,
      (applyOps newRouter ops).matcherFallbackToCatchAll =
        ((applyOps newRouter ops).alwaysUseFirstMatch == false &&
         (applyOps newRouter ops).methodNotAllowedIsError == false) := by
  refine ⟨rfl, fun ops => applyOps_invariant ops newRouter rfl⟩

/-- C7: SetStringVariable stores the value under the key `"$" ++ v` when
`v` does not already start with `$`, under `v` unchanged when it does,
and leaves every other entry of the variable table unchanged. -/
theorem setStringVariable_spec (vars : List (String × String)) (v s : String) :
    (dollarFirst v = false →
      assocGet (setStringVariable vars v s) ("$" ++ v) = some s) ∧
    (dollarFirst v = true →
      assocGet (setStringVariable vars v s) v = some s) ∧
    (∀ k : String, k ≠ (if dollarFirst v then v else "$" ++ v) →
      assocGet (setStringVariable vars v s) k = assocGet vars k) := by
  refine ⟨?_, ?_, ?_⟩
  · intro h
    simp only [setStringVariable, h, Bool.false_eq_true, if_false]
    exact assocGet_put_self vars ("$" ++ v) s
  · intro h
    simp only [setStringVariable, h, if_true]
    exact assocGet_put_self vars v s
  · intro k hk
    cases h : dollarFirst v with
    | false =>
      rw [h] at hk
      simp only [setStringVariable, h, Bool.false_eq_true, if_false]
      exact assocGet_put_other vars ("$" ++ v) k s (by simpa using hk)
    | true =>
      rw [h] at hk
      simp only [setStringVariable, h, if_true]
      exact assocGet_put_other vars v k s (by simpa using hk)

/-- Witness for C7 at a concrete input: storing color = blue lands under
the key $color and leaves an unrelated key untouched. -/
theorem setStringVariable_spec_witness :
    assocGet (setStringVariable [("$size", "large")] "color" "blue")
        ("$" ++ "color") = some "blue" ∧
    assocGet (setStringVariable [("$size", "large")] "color" "blue")
        "$size" = assocGet [("$size", "large")] "$size" :=
  ⟨(setStringVariable_spec [("$size", "large")] "color" "blue").1 rfl,
   (setStringVariable_spec [("$size", "large")] "color" "blue").2.2
     "$size" (by decide)⟩

/-- C8: FirstStringRouteParam is a total function: it returns the first
element of a non-empty slice and the empty string for a nil or empty
slice, so an absent parameter yields an explicit empty result rather
than a crash. -/
theorem firstStringRouteParam_total :
    firstStringRouteParam none = "" ∧
    firstStringRouteParam (some []) = "" ∧
    ∀ (x : String) (rest : List String),
      firstStringRouteParam (some (x :: rest)) = x := by
  exact ⟨rfl, rfl, fun x rest => rfl⟩

/-- C10: starting a chain with an empty handler list panics, both through
the handler returned by Chain.Call and the one returned by Chain.Then,
because startChain unconditionally indexes handlers[0]; NewChain with no
arguments produces such a chain. -/
theorem emptyChainPanics :
    (newChain []).handlers = [] ∧
    (newChain []).callRun = StartResult.panicked ∧
    (newChain []).thenRun = StartResult.panicked ∧
    ∀ ch : Chain, ch.handlers = [] →
      ch.callRun = StartResult.panicked ∧ ch.thenRun = StartResult.panicked := by
  refine ⟨rfl, rfl, rfl, fun ch h => ?_⟩
  constructor <;> simp [Chain.callRun, Chain.thenRun, Chain.startCh,
    Chain.resetSt, h]

/-- Witness for C10 at a concrete input: the chain built by NewChain with
no handlers panics on start. -/
theorem emptyChainPanics_witness :
    (newChain []).callRun = StartResult.panicked ∧
    (newChain []).thenRun = StartResult.panicked :=
  emptyChainPanics.2.2.2 (newChain []) rfl

/-- C2: with both /users/active and /users/:id registered, GET
/users/active matches the fixed route and GET /users/42 matches the
parameter route with id = 42; and in general, at every token a Fixed
child matching the token is preferred over the Named child, which is
preferred over the Catch-all child. -/
theorem fixedWinsOverNamed :
    (registerAll [] rootNode usersRegs = .ok usersTree) ∧
    ((matchPathToRoute false false "GET" "/users/active" usersTree).map
        summarize = some (["/users/active"], [], "")) ∧
    ((matchPathToRoute false false "GET" "/users/42" usersTree).map
        summarize = some (["/users/:id"], [("id", "42")], "")) ∧
    (∀ (aF fCA : Bool) (meth : String) (n c : Node) (t : String)
        (ts : List String) (params : List (String × String))
        (stack : List CAEntry),
      n.fixedChild t = some c →
      matchNode aF fCA meth n (t :: ts) params stack =
        matchNode aF fCA meth c ts params (pushCA n params (t :: ts) stack)) ∧
    (∀ (aF fCA : Bool) (meth : String) (n c : Node) (t : String)
        (ts : List String) (params : List (String × String))
        (stack : List CAEntry),
      n.fixedChild t = none → n.wildChild = some c →
      matchNode aF fCA meth n (t :: ts) params stack =
        matchNode aF fCA meth c ts (params ++ [(c.key, t)])
          (pushCA n params (t :: ts) stack)) ∧
    (∀ (aF fCA : Bool) (meth : String) (n c : Node) (t : String)
        (ts : List String) (params : List (String × String))
        (stack : List CAEntry),
      n.fixedChild t = none → n.wildChild = none → n.caChild = some c →
      matchNode aF fCA meth n (t :: ts) params stack =
        some ⟨c, params, joinSlash (t :: ts)⟩) := by
  refine ⟨rfl, rfl, rfl, ?_, ?_, ?_⟩
  · intro aF fCA meth n c t ts params stack h
    simp only [matchNode, h]
  · intro aF fCA meth n c t ts params stack h1 h2
    simp only [matchNode, h1, h2]
  · intro aF fCA meth n c t ts params stack h1 h2 h3
    simp only [matchNode, h1, h2, h3]

/-- Witness for C2 at a concrete input: at the root of the
users trie, the Fixed child for the token "users" is taken. -/
theorem fixedWinsOverNamed_witness :
    matchNode false false "GET" usersTree ["users", "active"] [] [] =
      matchNode false false "GET" usersNodeA ["active"] []
        (pushCA usersTree [] ["users", "active"] []) :=
  fixedWinsOverNamed.2.2.2.1 false false "GET" usersTree usersNodeA
    "users" ["active"] [] [] rfl

/-- C3: with /files/*rest registered, GET /files/a/b/c matches with the
catch-all value exactly "a/b/c"; and in general, a Catch-all child
consumes all remaining tokens joined by `/` as the single captured
value. -/
theorem catchAllGreedy :
    (registerAll [] rootNode filesRegs = .ok filesTree) ∧
    ((matchPathToRoute false false "GET" "/files/a/b/c" filesTree).map
        summarize = some (["/files/*rest"], [], "a/b/c")) ∧
    (∀ (aF fCA : Bool) (meth : String) (n c : Node) (t : String)
        (ts : List String) (params : List (String × String))
        (stack : List CAEntry),
      n.fixedChild t = none → n.wildChild = none → n.caChild = some c →
      matchNode aF fCA meth n (t :: ts) params stack =
        some { node := c, params := params,
               catchAllValue := joinSlash (t :: ts) }) := by
  refine ⟨rfl, rfl, ?_⟩
  intro aF fCA meth n c t ts params stack h1 h2 h3
  simp only [matchNode, h1, h2, h3]

/-- Witness for C3 at a concrete input: under /files the remaining tokens
a, b, c are consumed by the catch-all child as "a/b/c". -/
theorem catchAllGreedy_witness :
    matchNode false false "GET" filesNodeF ["a", "b", "c"] [] [] =
      some { node := filesCANode, params := [],
             catchAllValue := joinSlash ["a", "b", "c"] } :=
  catchAllGreedy.2.2 false false "GET" filesNodeF filesCANode
    "a" ["b", "c"] [] [] rfl rfl rfl

/-- C6: registering /a/:y after /a/:x fails with ConflictingRoute and
leaves the trie unchanged; and in general, inserting a Named segment
under a parent whose Named child carries a different parameter name is a
ConflictingRoute error. -/
theorem conflictingNamedSiblings :
    (registerRoute [] conflictTree ⟨"GET", "/a/:y", 2⟩ =
      .error RegErr.conflictingRoute) ∧
    (registerOrKeep [] conflictTree ⟨"GET", "/a/:y", 2⟩ = conflictTree) ∧
    (∀ (n c : Node) (x : String) (segs : List Seg) (r : Route),
      n.wildChild = some c → c.key ≠ x →
      insertSegs n (Seg.named x :: segs) r = .error RegErr.conflictingRoute) := by
  refine ⟨rfl, rfl, ?_⟩
  intro n c x segs r h1 h2
  simp only [insertSegs, h1, if_neg h2]

/-- Witness for C6 at a concrete input: under the node /a whose Named
child is :x, inserting a :y segment is rejected. -/
theorem conflictingNamedSiblings_witness :
    insertSegs conflictANode [Seg.named "y"] ⟨"GET", "/a/:y", some 2⟩ =
      .error RegErr.conflictingRoute :=
  conflictingNamedSiblings.2.2 conflictANode conflictXNode "y" []
    ⟨"GET", "/a/:y", some 2⟩ rfl (by decide)

/-- C5: with no global handler for the method, ServeHTTP emits 404 when
the match is nil or its node has zero routes (and no static file
matches), emits 405 when the node has routes but none for the requested
method, and invokes a route handler only when a route for the method
exists. -/
theorem serveErrorMapping
    (globals : List (String × Nat)) (fc : Nat) (meth : String)
    (matchRes : Option MatchResult) (staticEx : Bool)
    (hg : assocGet globals (upper meth) = none) :
    ((matchRes = none ∨ ∃ M, matchRes = some M ∧ M.node.routes = []) →
      staticEx = false →
      (serveDispatch globals fc meth matchRes staticEx).outcome =
        ServeOutcome.errorEmitted "Not Found" 404) ∧
    (∀ M : MatchResult, matchRes = some M → M.node.routes ≠ [] →
      M.node.routeForMethod (upper meth) = none →
      (serveDispatch globals fc meth matchRes staticEx).outcome =
        ServeOutcome.errorEmitted "Method Not Allowed" 405) ∧
    (∀ tag : Nat,
      (serveDispatch globals fc meth matchRes staticEx).outcome =
        ServeOutcome.handled tag →
      ∃ (M : MatchResult) (r : Route), matchRes = some M ∧
        M.node.routeForMethod (upper meth) = some r ∧
        r.handler = some tag) := by
  refine ⟨?_, ?_, ?_⟩
  · rintro (h | ⟨M, hM, hroutes⟩) hs
    · subst h; subst hs
      simp [serveDispatch, hg]
    · subst hM; subst hs
      simp [serveDispatch, hg, hroutes]
  · intro M hM hne hrm
    subst hM
    have hie : M.node.routes.isEmpty = false := by
      cases hr : M.node.routes with
      | nil => exact absurd hr hne
      | cons a l => rfl
    simp [serveDispatch, hg, hie, hrm]
  · intro tag h
    cases hmr : matchRes with
    | none =>
      rw [hmr] at h
      cases staticEx <;> simp [serveDispatch, hg] at h
    | some M =>
      rw [hmr] at h
      simp only [serveDispatch, hg] at h
      by_cases hie : M.node.routes.isEmpty
      · rw [if_pos hie] at h
        cases staticEx <;> simp at h
      · rw [if_neg hie] at h
        cases hrm : M.node.routeForMethod (upper meth) with
        | none => rw [hrm] at h; simp at h
        | some r =>
          rw [hrm] at h
          dsimp only at h
          by_cases hca : (M.node.nodeType = RouteComponentType.catchAll ∧
              staticEx = true)
          · rw [if_pos hca] at h; simp at h
          · rw [if_neg hca] at h
            cases hh : r.handler with
            | none => rw [hh] at h; simp at h
            | some t2 =>
              rw [hh] at h
              simp at h
              exact ⟨M, r, rfl, hrm, by rw [hh, h]⟩

/-- Witness for C5 at a concrete input: an empty router given a request
with no match and no static file 404s. -/
theorem serveErrorMapping_witness :
    (serveDispatch [] 0 "GET" none false).outcome =
      ServeOutcome.errorEmitted "Not Found" 404 :=
  (serveErrorMapping [] 0 "GET" none false rfl).1 (Or.inl rfl) rfl

/-- C9: when a global handler is registered for the upper-cased request
method, ServeHTTP runs the before-filters, invokes that handler and
returns: the result does not depend on the match result or the
static-file probe, and the after-filters are skipped. -/
theorem globalHandlerShortCircuits
    (globals : List (String × Nat)) (fc : Nat) (meth : String) (tag : Nat)
    (matchRes : Option MatchResult) (staticEx : Bool)
    (hg : assocGet globals (upper meth) = some tag) :
    (serveDispatch globals fc meth matchRes staticEx =
      { beforeFiltersRun := fc != 0,
        outcome := ServeOutcome.globalHandled tag,
        afterFiltersRun := false }) ∧
    (∀ (mr2 : Option MatchResult) (se2 : Bool),
      serveDispatch globals fc meth matchRes staticEx =
        serveDispatch globals fc meth mr2 se2) := by
  have base : ∀ (mr : Option MatchResult) (se : Bool),
      serveDispatch globals fc meth mr se =
        ⟨fc != 0, ServeOutcome.globalHandled tag, false⟩ := by
    intro mr se
    simp [serveDispatch, hg]
  exact ⟨base matchRes staticEx,
    fun mr2 se2 => by rw [base matchRes staticEx, base mr2 se2]⟩

/-- Witness for C9 at a concrete input: a GET global handler registered
with lower-case "get" short-circuits a GET request. -/
theorem globalHandlerShortCircuits_witness :
    serveDispatch (setGlobalHandler [] "get" 5) 2 "GET" none false =
      { beforeFiltersRun := (2 : Nat) != 0,
        outcome := ServeOutcome.globalHandled 5,
        afterFiltersRun := false } :=
  (globalHandlerShortCircuits (setGlobalHandler [] "get" 5) 2 "GET" 5
    none false (by decide)).1

theorem segsFollow_nil (n : Node) : segsFollow n [] = some n := rfl

theorem segsFollow_fixed_some (n c : Node) (lit : String) (segs : List Seg)
    (h : n.fixedChild lit = some c) :
    segsFollow n (Seg.fixed lit :: segs) = segsFollow c segs := by
  simp only [segsFollow, h]

theorem segsFollow_named_some (n c : Node) (x : String) (segs : List Seg)
    (h : n.wildChild = some c) :
    segsFollow n (Seg.named x :: segs) =
      (if c.key = x then segsFollow c segs else none) := by
  simp only [segsFollow, h]

theorem segsFollow_ca_some (n c : Node) (x : String) (h : n.caChild = some c) :
    segsFollow n [Seg.catchAll x] = (if c.key = x then some c else none) := by
  simp only [segsFollow, h]

theorem segsFollow_ca_cons (n : Node) (x : String) (s : Seg)
    (rest : List Seg) :
    segsFollow n (Seg.catchAll x :: s :: rest) = none := by
  simp only [segsFollow]

theorem insertSegs_key (segs : List Seg) :
    ∀ (n n2 : Node) (r : Route),
      insertSegs n segs r = .ok n2 → n2.key = n.key := by
  induction segs with
  | nil =>
    intro n n2 r h
    simp only [insertSegs, bindRoute] at h
    by_cases hs : (n.routeForMethod r.method).isSome
    · rw [if_pos hs] at h; exact Except.noConfusion h
    · rw [if_neg hs, Except.ok.injEq] at h
      subst h
      simp
  | cons s segs ih =>
    intro n n2 r h
    cases s with
    | fixed lit =>
      simp only [insertSegs] at h
      cases hc : n.fixedChild lit with
      | some c =>
        simp only [hc] at h
        rw [except_map_ok] at h
        obtain ⟨c2, _, rfl⟩ := h
        simp
      | none =>
        simp only [hc] at h
        rw [except_map_ok] at h
        obtain ⟨c2, _, rfl⟩ := h
        simp
    | named x =>
      simp only [insertSegs] at h
      cases hw : n.wildChild with
      | some c =>
        simp only [hw] at h
        by_cases hk : c.key = x
        · rw [if_pos hk, except_map_ok] at h
          obtain ⟨c2, _, rfl⟩ := h
          simp
        · rw [if_neg hk] at h; exact Except.noConfusion h
      | none =>
        simp only [hw] at h
        rw [except_map_ok] at h
        obtain ⟨c2, _, rfl⟩ := h
        simp
    | catchAll x =>
      cases segs with
      | nil =>
        simp only [insertSegs] at h
        cases hca : n.caChild with
        | some c =>
          simp only [hca] at h
          by_cases hk : c.key = x
          · rw [if_pos hk, except_map_ok] at h
            obtain ⟨c2, _, rfl⟩ := h
            simp
          · rw [if_neg hk] at h; exact Except.noConfusion h
        | none =>
          simp only [hca] at h
          rw [except_map_ok] at h
          obtain ⟨c2, _, rfl⟩ := h
          simp
      | cons s2 rest =>
        simp only [insertSegs] at h
        exact Except.noConfusion h

theorem insertSegs_reaches (segs : List Seg) :
    ∀ (n n2 : Node) (r : Route), insertSegs n segs r = .ok n2 →
      ∃ m : Node, segsFollow n2 segs = some m ∧ r ∈ m.routes := by
  induction segs with
  | nil =>
    intro n n2 r h
    simp only [insertSegs, bindRoute] at h
    by_cases hs : (n.routeForMethod r.method).isSome
    · rw [if_pos hs] at h; exact Except.noConfusion h
    · rw [if_neg hs, Except.ok.injEq] at h
      subst h
      exact ⟨_, rfl, by simp⟩
  | cons s segs ih =>
    intro n n2 r h
    cases s with
    | fixed lit =>
      simp only [insertSegs] at h
      cases hc : n.fixedChild lit with
      | some c =>
        simp only [hc] at h
        rw [except_map_ok] at h
        obtain ⟨c2, hc2, rfl⟩ := h
        obtain ⟨m, hm, hr⟩ := ih c c2 r hc2
        have hfc : (n.withFixedChild lit c2).fixedChild lit = some c2 := by
          simp [Node.fixedChild, assocGet_put_self]
        exact ⟨m, by rw [segsFollow_fixed_some _ c2 lit segs hfc, hm], hr⟩
      | none =>
        simp only [hc] at h
        rw [except_map_ok] at h
        obtain ⟨c2, hc2, rfl⟩ := h
        obtain ⟨m, hm, hr⟩ := ih _ c2 r hc2
        have hfc : (n.withFixedChild lit c2).fixedChild lit = some c2 := by
          simp [Node.fixedChild, assocGet_put_self]
        exact ⟨m, by rw [segsFollow_fixed_some _ c2 lit segs hfc, hm], hr⟩
    | named x =>
      simp only [insertSegs] at h
      cases hw : n.wildChild with
      | some c =>
        simp only [hw] at h
        by_cases hk : c.key = x
        · rw [if_pos hk, except_map_ok] at h
          obtain ⟨c2, hc2, rfl⟩ := h
          obtain ⟨m, hm, hr⟩ := ih c c2 r hc2
          have hkey : c2.key = x := by
            rw [insertSegs_key segs c c2 r hc2, hk]
          refine ⟨m, ?_, hr⟩
          rw [segsFollow_named_some _ c2 x segs (by simp), if_pos hkey, hm]
        · rw [if_neg hk] at h; exact Except.noConfusion h
      | none =>
        simp only [hw] at h
        rw [except_map_ok] at h
        obtain ⟨c2, hc2, rfl⟩ := h
        obtain ⟨m, hm, hr⟩ := ih _ c2 r hc2
        have hkey : c2.key = x := by
          rw [insertSegs_key segs _ c2 r hc2]; rfl
        refine ⟨m, ?_, hr⟩
        rw [segsFollow_named_some _ c2 x segs (by simp), if_pos hkey, hm]
    | catchAll x =>
      cases segs with
      | nil =>
        simp only [insertSegs] at h
        cases hca : n.caChild with
        | some c =>
          simp only [hca] at h
          by_cases hk : c.key = x
          · rw [if_pos hk, except_map_ok] at h
            obtain ⟨c2, hc2, rfl⟩ := h
            simp only [bindRoute] at hc2
            by_cases hs : (c.routeForMethod r.method).isSome
            · rw [if_pos hs] at hc2; exact Except.noConfusion hc2
            · rw [if_neg hs, Except.ok.injEq] at hc2
              subst hc2
              refine ⟨c.withRoutes (c.routes ++ [r]), ?_, by simp⟩
              rw [segsFollow_ca_some _ (c.withRoutes (c.routes ++ [r])) x
                (by simp), if_pos (by simp [hk])]
          · rw [if_neg hk] at h; exact Except.noConfusion h
        | none =>
          simp only [hca] at h
          have hb : bindRoute (newNode .catchAll x) r =
              .ok (Node.mk .catchAll x [] none none [r]) := rfl
          rw [hb, except_map_ok] at h
          obtain ⟨c2, hc2, rfl⟩ := h
          rw [Except.ok.injEq] at hc2
          subst hc2
          refine ⟨Node.mk .catchAll x [] none none [r], ?_, by simp⟩
          rw [segsFollow_ca_some _ (Node.mk .catchAll x [] none none [r]) x
            (by simp), if_pos (by simp)]
      | cons s2 rest =>
        simp only [insertSegs] at h
        exact Except.noConfusion h

theorem insertSegs_routes (segs : List Seg) (n n2 : Node) (r2 : Route)
    (h : insertSegs n segs r2 = .ok n2) :
    n2.routes = n.routes ∨ n2.routes = n.routes ++ [r2] := by
  cases segs with
  | nil =>
    simp only [insertSegs, bindRoute] at h
    by_cases hs : (n.routeForMethod r2.method).isSome
    · rw [if_pos hs] at h; exact Except.noConfusion h
    · rw [if_neg hs, Except.ok.injEq] at h
      subst h
      right; simp
  | cons s rest =>
    cases s with
    | fixed lit =>
      simp only [insertSegs] at h
      cases hc : n.fixedChild lit with
      | some c =>
        simp only [hc] at h
        rw [except_map_ok] at h
        obtain ⟨c2, _, rfl⟩ := h
        left; simp
      | none =>
        simp only [hc] at h
        rw [except_map_ok] at h
        obtain ⟨c2, _, rfl⟩ := h
        left; simp
    | named x =>
      simp only [insertSegs] at h
      cases hw : n.wildChild with
      | some c =>
        simp only [hw] at h
        by_cases hk : c.key = x
        · rw [if_pos hk, except_map_ok] at h
          obtain ⟨c2, _, rfl⟩ := h
          left; simp
        · rw [if_neg hk] at h; exact Except.noConfusion h
      | none =>
        simp only [hw] at h
        rw [except_map_ok] at h
        obtain ⟨c2, _, rfl⟩ := h
        left; simp
    | catchAll x =>
      cases rest with
      | nil =>
        simp only [insertSegs] at h
        cases hca : n.caChild with
        | some c =>
          simp only [hca] at h
          by_cases hk : c.key = x
          · rw [if_pos hk, except_map_ok] at h
            obtain ⟨c2, _, rfl⟩ := h
            left; simp
          · rw [if_neg hk] at h; exact Except.noConfusion h
        | none =>
          simp only [hca] at h
          have hb : bindRoute (newNode .catchAll x) r2 =
              .ok (Node.mk .catchAll x [] none none [r2]) := rfl
          rw [hb, except_map_ok] at h
          obtain ⟨c2, _, rfl⟩ := h
          left; simp
      | cons s2 r3 =>
        simp only [insertSegs] at h
        exact Except.noConfusion h

theorem segsFollow_fixed_none (n : Node) (lit : String) (segs : List Seg)
    (h : n.fixedChild lit = none) :
    segsFollow n (Seg.fixed lit :: segs) = none := by
  simp only [segsFollow, h]

theorem segsFollow_named_none (n : Node) (x : String) (segs : List Seg)
    (h : n.wildChild = none) :
    segsFollow n (Seg.named x :: segs) = none := by
  simp only [segsFollow, h]

theorem segsFollow_ca_none (n : Node) (x : String) (h : n.caChild = none) :
    segsFollow n [Seg.catchAll x] = none := by
  simp only [segsFollow, h]

theorem bindRoute_ok (a b : Node) (r : Route) (h : bindRoute a r = .ok b) :
    b = a.withRoutes (a.routes ++ [r]) := by
  simp only [bindRoute] at h
  by_cases hs : (a.routeForMethod r.method).isSome
  · rw [if_pos hs] at h; exact Except.noConfusion h
  · rw [if_neg hs, Except.ok.injEq] at h; exact h.symm

theorem insertSegs_shape (segs2 : List Seg) (n n2 : Node) (r2 : Route)
    (h : insertSegs n segs2 r2 = .ok n2) :
    (segs2 = [] ∧ n2 = n.withRoutes (n.routes ++ [r2])) ∨
    (∃ lit rest2 c c2, segs2 = Seg.fixed lit :: rest2 ∧
      insertSegs c rest2 r2 = .ok c2 ∧ n2 = n.withFixedChild lit c2 ∧
      (n.fixedChild lit = some c ∨
        (n.fixedChild lit = none ∧ c = newNode .fixed lit))) ∨
    (∃ x rest2 c c2, segs2 = Seg.named x :: rest2 ∧
      insertSegs c rest2 r2 = .ok c2 ∧ n2 = n.withWild c2 ∧
      ((n.wildChild = some c ∧ c.key = x) ∨
        (n.wildChild = none ∧ c = newNode .wildcard x))) ∨
    (∃ x c c2, segs2 = [Seg.catchAll x] ∧
      bindRoute c r2 = .ok c2 ∧ n2 = n.withCA c2 ∧
      ((n.caChild = some c ∧ c.key = x) ∨
        (n.caChild = none ∧ c = newNode .catchAll x))) := by
  cases segs2 with
  | nil =>
    left
    exact ⟨rfl, bindRoute_ok n n2 r2 h⟩
  | cons s rest =>
    cases s with
    | fixed lit =>
      right; left
      simp only [insertSegs] at h
      cases hc : n.fixedChild lit with
      | some c =>
        simp only [hc] at h
        rw [except_map_ok] at h
        obtain ⟨c2, hc2, rfl⟩ := h
        exact ⟨lit, rest, c, c2, rfl, hc2, rfl, Or.inl hc⟩
      | none =>
        simp only [hc] at h
        rw [except_map_ok] at h
        obtain ⟨c2, hc2, rfl⟩ := h
        exact ⟨lit, rest, newNode .fixed lit, c2, rfl, hc2, rfl,
          Or.inr ⟨hc, rfl⟩⟩
    | named x =>
      right; right; left
      simp only [insertSegs] at h
      cases hw : n.wildChild with
      | some c =>
        simp only [hw] at h
        by_cases hk : c.key = x
        · rw [if_pos hk, except_map_ok] at h
          obtain ⟨c2, hc2, rfl⟩ := h
          exact ⟨x, rest, c, c2, rfl, hc2, rfl, Or.inl ⟨rfl, hk⟩⟩
        · rw [if_neg hk] at h; exact Except.noConfusion h
      | none =>
        simp only [hw] at h
        rw [except_map_ok] at h
        obtain ⟨c2, hc2, rfl⟩ := h
        exact ⟨x, rest, newNode .wildcard x, c2, rfl, hc2, rfl,
          Or.inr ⟨rfl, rfl⟩⟩
    | catchAll x =>
      right; right; right
      cases rest with
      | nil =>
        simp only [insertSegs] at h
        cases hca : n.caChild with
        | some c =>
          simp only [hca] at h
          by_cases hk : c.key = x
          · rw [if_pos hk, except_map_ok] at h
            obtain ⟨c2, hc2, rfl⟩ := h
            exact ⟨x, c, c2, rfl, hc2, rfl, Or.inl ⟨rfl, hk⟩⟩
          · rw [if_neg hk] at h; exact Except.noConfusion h
        | none =>
          simp only [hca] at h
          rw [except_map_ok] at h
          obtain ⟨c2, hc2, rfl⟩ := h
          exact ⟨x, newNode .catchAll x, c2, rfl, hc2, rfl,
            Or.inr ⟨rfl, rfl⟩⟩
      | cons s2 r3 =>
        simp only [insertSegs] at h
        exact Except.noConfusion h

theorem insertSegs_preserves (segs : List Seg) :
    ∀ (n n2 : Node) (segs2 : List Seg) (r2 : Route) (m : Node) (r : Route),
      insertSegs n segs2 r2 = .ok n2 →
      segsFollow n segs = some m → r ∈ m.routes →
      ∃ m2 : Node, segsFollow n2 segs = some m2 ∧ r ∈ m2.routes := by
  induction segs with
  | nil =>
    intro n n2 segs2 r2 m r h hf hr
    rw [segsFollow_nil, Option.some.injEq] at hf
    subst hf
    refine ⟨n2, segsFollow_nil n2, ?_⟩
    rcases insertSegs_routes segs2 n n2 r2 h with he | he
    · rw [he]; exact hr
    · rw [he]; exact List.mem_append_left _ hr
  | cons s rest ih =>
    intro n n2 segs2 r2 m r h hf hr
    cases s with
    | fixed lit =>
      cases hc : n.fixedChild lit with
      | none =>
        rw [segsFollow_fixed_none n lit rest hc] at hf
        exact Option.noConfusion hf
      | some c =>
        rw [segsFollow_fixed_some n c lit rest hc] at hf
        rcases insertSegs_shape segs2 n n2 r2 h with
          ⟨_, rfl⟩ |
          ⟨lit2, rest2, c3, c32, rfl, hins, rfl, hdis⟩ |
          ⟨y, rest2, c3, c32, rfl, hins, rfl, _⟩ |
          ⟨y, c3, c32, rfl, hb, rfl, _⟩
        · exact ⟨m, by
            rw [segsFollow_fixed_some _ c lit rest (by simp [hc]), hf], hr⟩
        · by_cases hll : lit2 = lit
          · subst hll
            rcases hdis with hsome | ⟨hnone, _⟩
            · rw [hc] at hsome
              injection hsome with he
              subst he
              obtain ⟨m2, hm2, hr2⟩ := ih c c32 rest2 r2 m r hins hf hr
              refine ⟨m2, ?_, hr2⟩
              have hfc : (n.withFixedChild lit2 c32).fixedChild lit2 = some c32 := by
                simp [Node.fixedChild, assocGet_put_self]
              rw [segsFollow_fixed_some _ c32 lit2 rest hfc, hm2]
            · rw [hc] at hnone
              exact Option.noConfusion hnone
          · refine ⟨m, ?_, hr⟩
            have hfc : (n.withFixedChild lit2 c32).fixedChild lit = some c := by
              simp only [Node.fixedChild, Node.withFixedChild_children]
              rw [assocGet_put_other n.children lit2 lit c32
                (fun he => hll he.symm)]
              exact hc
            rw [segsFollow_fixed_some _ c lit rest hfc, hf]
        · exact ⟨m, by
            rw [segsFollow_fixed_some _ c lit rest (by simp [hc]), hf], hr⟩
        · exact ⟨m, by
            rw [segsFollow_fixed_some _ c lit rest (by simp [hc]), hf], hr⟩
    | named x =>
      cases hw : n.wildChild with
      | none =>
        rw [segsFollow_named_none n x rest hw] at hf
        exact Option.noConfusion hf
      | some c =>
        rw [segsFollow_named_some n c x rest hw] at hf
        by_cases hkx : c.key = x
        · rw [if_pos hkx] at hf
          rcases insertSegs_shape segs2 n n2 r2 h with
            ⟨_, rfl⟩ |
            ⟨lit2, rest2, c3, c32, rfl, hins, rfl, _⟩ |
            ⟨y, rest2, c3, c32, rfl, hins, rfl, hdis⟩ |
            ⟨y, c3, c32, rfl, hb, rfl, _⟩
          · refine ⟨m, ?_, hr⟩
            rw [segsFollow_named_some _ c x rest (by simp [hw]), if_pos hkx, hf]
          · refine ⟨m, ?_, hr⟩
            rw [segsFollow_named_some _ c x rest (by simp [hw]), if_pos hkx, hf]
          · rcases hdis with ⟨hsome, hk3⟩ | ⟨hnone, _⟩
            · rw [hw] at hsome
              injection hsome with he
              subst he
              obtain ⟨m2, hm2, hr2⟩ := ih c c32 rest2 r2 m r hins hf hr
              refine ⟨m2, ?_, hr2⟩
              have hkey : c32.key = x := by
                rw [insertSegs_key rest2 c c32 r2 hins, hkx]
              rw [segsFollow_named_some _ c32 x rest (by simp),
                if_pos hkey, hm2]
            · rw [hw] at hnone
              exact Option.noConfusion hnone
          · refine ⟨m, ?_, hr⟩
            rw [segsFollow_named_some _ c x rest (by simp [hw]), if_pos hkx, hf]
        · rw [if_neg hkx] at hf
          exact Option.noConfusion hf
    | catchAll x =>
      cases rest with
      | cons s2 rest2 =>
        rw [segsFollow_ca_cons n x s2 rest2] at hf
        exact Option.noConfusion hf
      | nil =>
        cases hca : n.caChild with
        | none =>
          rw [segsFollow_ca_none n x hca] at hf
          exact Option.noConfusion hf
        | some c =>
          rw [segsFollow_ca_some n c x hca] at hf
          by_cases hkx : c.key = x
          · rw [if_pos hkx, Option.some.injEq] at hf
            subst hf
            rcases insertSegs_shape segs2 n n2 r2 h with
              ⟨_, rfl⟩ |
              ⟨lit2, rest2, c3, c32, rfl, hins, rfl, _⟩ |
              ⟨y, rest2, c3, c32, rfl, hins, rfl, _⟩ |
              ⟨y, c3, c32, rfl, hb, rfl, hdis⟩
            · refine ⟨c, ?_, hr⟩
              rw [segsFollow_ca_some _ c x (by simp [hca]), if_pos hkx]
            · refine ⟨c, ?_, hr⟩
              rw [segsFollow_ca_some _ c x (by simp [hca]), if_pos hkx]
            · refine ⟨c, ?_, hr⟩
              rw [segsFollow_ca_some _ c x (by simp [hca]), if_pos hkx]
            · rcases hdis with ⟨hsome, hk3⟩ | ⟨hnone, _⟩
              · rw [hca] at hsome
                injection hsome with he
                subst he
                have hc32 : c32 = c.withRoutes (c.routes ++ [r2]) :=
                  bindRoute_ok c c32 r2 hb
                subst hc32
                refine ⟨c.withRoutes (c.routes ++ [r2]), ?_, ?_⟩
                · rw [segsFollow_ca_some _ (c.withRoutes (c.routes ++ [r2])) x
                    (by simp), if_pos (by simp [hkx])]
                · rw [Node.withRoutes_routes]
                  exact List.mem_append_left _ hr
              · rw [hca] at hnone
                exact Option.noConfusion hnone
          · rw [if_neg hkx] at hf
            exact Option.noConfusion hf

theorem registerRoute_ok (vars : List (String × String)) (t t2 : Node)
    (g : Reg) (h : registerRoute vars t g = .ok t2) :
    ∃ segs, parsePattern vars g.pattern = .ok segs ∧
      insertSegs t segs (mkRoute g) = .ok t2 := by
  simp only [registerRoute] at h
  rw [except_bind_ok] at h
  exact h

theorem registerAll_cons (vars : List (String × String)) (t T : Node)
    (g : Reg) (gs : List Reg)
    (h : registerAll vars t (g :: gs) = .ok T) :
    ∃ t1, registerRoute vars t g = .ok t1 ∧ registerAll vars t1 gs = .ok T := by
  simp only [registerAll] at h
  rw [except_bind_ok] at h
  exact h

theorem registerAll_preserves (gs : List Reg) :
    ∀ (vars : List (String × String)) (t T : Node) (segs : List Seg)
      (m : Node) (r : Route),
      registerAll vars t gs = .ok T →
      segsFollow t segs = some m → r ∈ m.routes →
      ∃ m2, segsFollow T segs = some m2 ∧ r ∈ m2.routes := by
  induction gs with
  | nil =>
    intro vars t T segs m r h hf hr
    simp only [registerAll, Except.ok.injEq] at h
    subst h
    exact ⟨m, hf, hr⟩
  | cons g gs ih =>
    intro vars t T segs m r h hf hr
    obtain ⟨t1, h1, h2⟩ := registerAll_cons vars t T g gs h
    obtain ⟨segs2, hp, hi⟩ := registerRoute_ok vars t t1 g h1
    obtain ⟨m1, hf1, hr1⟩ :=
      insertSegs_preserves segs t t1 segs2 (mkRoute g) m r hi hf hr
    exact ih vars t1 T segs m1 r h2 hf1 hr1

theorem registerAll_registers (gs : List Reg) :
    ∀ (vars : List (String × String)) (t T : Node) (g : Reg)
      (segs : List Seg),
      registerAll vars t gs = .ok T → g ∈ gs →
      parsePattern vars g.pattern = .ok segs →
      ∃ m, segsFollow T segs = some m ∧ mkRoute g ∈ m.routes := by
  induction gs with
  | nil =>
    intro vars t T g segs h hg hp
    exact absurd hg (List.not_mem_nil g)
  | cons g1 gs ih =>
    intro vars t T g segs h hg hp
    obtain ⟨t1, h1, h2⟩ := registerAll_cons vars t T g1 gs h
    rcases List.mem_cons.mp hg with rfl | hgs
    · obtain ⟨segs1, hp1, hi1⟩ := registerRoute_ok vars t t1 g h1
      rw [hp] at hp1
      injection hp1 with he
      subst he
      obtain ⟨m1, hf1, hr1⟩ := insertSegs_reaches segs t t1 (mkRoute g) hi1
      exact registerAll_preserves gs vars t1 T segs m1 (mkRoute g) h2 hf1 hr1
    · exact ih vars t1 T g segs h2 hgs hp

theorem followOK_segsFollow (segs : List Seg) :
    ∀ (n m m2 : Node) (ts : List String),
      followOK n segs ts = some m → segsFollow n segs = some m2 → m = m2 := by
  induction segs with
  | nil =>
    intro n m m2 ts hf hs
    cases ts with
    | nil =>
      simp only [followOK, Option.some.injEq] at hf
      rw [segsFollow_nil, Option.some.injEq] at hs
      rw [← hf, ← hs]
    | cons t ts2 =>
      simp only [followOK] at hf
      exact Option.noConfusion hf
  | cons s rest ih =>
    intro n m m2 ts hf hs
    cases s with
    | fixed lit =>
      cases ts with
      | nil => simp only [followOK] at hf; exact Option.noConfusion hf
      | cons t ts2 =>
        simp only [followOK] at hf
        by_cases htl : t = lit
        · rw [if_pos htl] at hf
          cases hc : n.fixedChild lit with
          | none => simp only [hc] at hf; exact Option.noConfusion hf
          | some c =>
            simp only [hc] at hf
            rw [segsFollow_fixed_some n c lit rest hc] at hs
            exact ih c m m2 ts2 hf hs
        · rw [if_neg htl] at hf
          exact Option.noConfusion hf
    | named x =>
      cases ts with
      | nil => simp only [followOK] at hf; exact Option.noConfusion hf
      | cons t ts2 =>
        simp only [followOK] at hf
        by_cases hfx : (n.fixedChild t).isNone = true
        · rw [if_pos hfx] at hf
          cases hw : n.wildChild with
          | none => simp only [hw] at hf; exact Option.noConfusion hf
          | some c =>
            simp only [hw] at hf
            rw [segsFollow_named_some n c x rest hw] at hs
            by_cases hkx : c.key = x
            · rw [if_pos hkx] at hs
              exact ih c m m2 ts2 hf hs
            · rw [if_neg hkx] at hs
              exact Option.noConfusion hs
        · rw [if_neg hfx] at hf
          exact Option.noConfusion hf
    | catchAll x =>
      cases rest with
      | cons s2 rest2 =>
        cases ts with
        | nil => simp only [followOK] at hf; exact Option.noConfusion hf
        | cons t ts2 => simp only [followOK] at hf; exact Option.noConfusion hf
      | nil =>
        cases ts with
        | nil => simp only [followOK] at hf; exact Option.noConfusion hf
        | cons t ts2 =>
          simp only [followOK] at hf
          by_cases hcond : ((n.fixedChild t).isNone && (n.wildChild).isNone) = true
          · rw [if_pos hcond] at hf
            rw [segsFollow_ca_some n m x hf] at hs
            by_cases hkx : m.key = x
            · rw [if_pos hkx, Option.some.injEq] at hs
              exact hs
            · rw [if_neg hkx] at hs
              exact Option.noConfusion hs
          · rw [if_neg hcond] at hf
            exact Option.noConfusion hf

theorem find?_isSome_of_mem {α : Type} (p : α → Bool) (l : List α) (x : α)
    (hx : x ∈ l) (hp : p x = true) : (l.find? p).isSome = true := by
  induction l with
  | nil => exact absurd hx (List.not_mem_nil x)
  | cons a l ih =>
    rcases List.mem_cons.mp hx with rfl | h2
    · rw [List.find?_cons_of_pos _ hp]
      rfl
    · cases hpa : p a with
      | true =>
        rw [List.find?_cons_of_pos _ hpa]
        rfl
      | false =>
        rw [List.find?_cons_of_neg _ (by simp [hpa])]
        exact ih h2

theorem matchNode_of_followOK (aF fCA : Bool) (meth : String)
    (segs : List Seg) :
    ∀ (n m : Node) (ts : List String) (params : List (String × String))
      (stack : List CAEntry),
      followOK n segs ts = some m →
      m.routes ≠ [] →
      (aF = true ∨ (m.routeForMethod meth).isSome = true) →
      ∃ ps cv, matchNode aF fCA meth n ts params stack = some ⟨m, ps, cv⟩ := by
  induction segs with
  | nil =>
    intro n m ts params stack hf hroutes hm
    cases ts with
    | cons t ts2 => simp only [followOK] at hf; exact Option.noConfusion hf
    | nil =>
      simp only [followOK, Option.some.injEq] at hf
      subst hf
      have hie : n.routes.isEmpty = false := by
        cases hrr : n.routes with
        | nil => exact absurd hrr hroutes
        | cons a l => rfl
      refine ⟨params, "", ?_⟩
      cases aF with
      | true => simp [matchNode, hie]
      | false =>
        have hs : (n.routeForMethod meth).isSome = true := by
          rcases hm with h | h
          · exact Bool.noConfusion h
          · exact h
        simp [matchNode, hie, hs]
  | cons s rest ih =>
    intro n m ts params stack hf hroutes hm
    cases s with
    | fixed lit =>
      cases ts with
      | nil => simp only [followOK] at hf; exact Option.noConfusion hf
      | cons t ts2 =>
        simp only [followOK] at hf
        by_cases htl : t = lit
        · rw [if_pos htl] at hf
          cases hc : n.fixedChild lit with
          | none => simp only [hc] at hf; exact Option.noConfusion hf
          | some c =>
            simp only [hc] at hf
            obtain ⟨ps, cv, hmatch⟩ :=
              ih c m ts2 params (pushCA n params (t :: ts2) stack) hf hroutes hm
            refine ⟨ps, cv, ?_⟩
            subst htl
            simp only [matchNode, hc]
            exact hmatch
        · rw [if_neg htl] at hf
          exact Option.noConfusion hf
    | named x =>
      cases ts with
      | nil => simp only [followOK] at hf; exact Option.noConfusion hf
      | cons t ts2 =>
        simp only [followOK] at hf
        by_cases hfx : (n.fixedChild t).isNone = true
        · rw [if_pos hfx] at hf
          cases hw : n.wildChild with
          | none => simp only [hw] at hf; exact Option.noConfusion hf
          | some c =>
            simp only [hw] at hf
            obtain ⟨ps, cv, hmatch⟩ := ih c m ts2 (params ++ [(c.key, t)])
              (pushCA n params (t :: ts2) stack) hf hroutes hm
            refine ⟨ps, cv, ?_⟩
            have hcn : n.fixedChild t = none := Option.isNone_iff_eq_none.mp hfx
            simp only [matchNode, hcn, hw]
            exact hmatch
        · rw [if_neg hfx] at hf
          exact Option.noConfusion hf
    | catchAll x =>
      cases rest with
      | cons s2 rest2 =>
        cases ts with
        | nil => simp only [followOK] at hf; exact Option.noConfusion hf
        | cons t ts2 => simp only [followOK] at hf; exact Option.noConfusion hf
      | nil =>
        cases ts with
        | nil => simp only [followOK] at hf; exact Option.noConfusion hf
        | cons t ts2 =>
          simp only [followOK] at hf
          by_cases hcond : ((n.fixedChild t).isNone && (n.wildChild).isNone) = true
          · rw [if_pos hcond] at hf
            rw [Bool.and_eq_true] at hcond
            obtain ⟨h1, h2⟩ := hcond
            have hcn : n.fixedChild t = none := Option.isNone_iff_eq_none.mp h1
            have hwn : n.wildChild = none := Option.isNone_iff_eq_none.mp h2
            refine ⟨params, joinSlash (t :: ts2), ?_⟩
            simp only [matchNode, hcn, hwn, hf]
          · rw [if_neg hcond] at hf
            exact Option.noConfusion hf

/-- C1 (amended): for every set of registered routes and every registered
(method, pattern) pair, requesting a literal instantiation of that
pattern with that method returns a Match whose node holds the registered
Route, provided no token of the instantiation is shadowed by a more
specific sibling along the way: at each Named segment the supplied token
is not also a Fixed child of the current node, and at the Catch-all
segment the first remaining token is not a Fixed child and there is no
Named child (the followOK hypothesis).  Without that proviso the claim is
false, see the counterexample. -/
theorem matchFindsRegisteredRoute
    (vars : List (String × String)) (gs : List Reg) (t0 T : Node) (g : Reg)
    (segs : List Seg) (ts : List String) (m : Node) (aF fCA : Bool)
    (path : String)
    (hreg : registerAll vars t0 gs = .ok T)
    (hg : g ∈ gs)
    (hparse : parsePattern vars g.pattern = .ok segs)
    (hfollow : followOK T segs ts = some m)
    (htok : pathTokens path = ts) :
    ∃ M : MatchResult,
      matchPathToRoute aF fCA (upper g.method) path T = some M ∧
      M.node = m ∧ mkRoute g ∈ M.node.routes := by
  obtain ⟨m2, hsf, hmem⟩ := registerAll_registers gs vars t0 T g segs hreg hg hparse
  have hmm : m = m2 := followOK_segsFollow segs T m m2 ts hfollow hsf
  subst hmm
  have hne : m.routes ≠ [] := by
    intro hempty
    rw [hempty] at hmem
    exact absurd hmem (List.not_mem_nil _)
  have hsome : (m.routeForMethod (upper g.method)).isSome = true := by
    unfold Node.routeForMethod
    exact find?_isSome_of_mem _ m.routes (mkRoute g) hmem (by simp [mkRoute])
  obtain ⟨ps, cv, hmatch⟩ := matchNode_of_followOK aF fCA (upper g.method)
    segs T m ts [] [] hfollow hne (Or.inr hsome)
  refine ⟨⟨m, ps, cv⟩, ?_, rfl, hmem⟩
  unfold matchPathToRoute
  rw [htok]
  exact hmatch

/-- Witness for C1 (amended) at a concrete input: the single registration
GET /users/:id is found by requesting /users/71. -/
theorem matchFindsRegisteredRoute_witness :
    ∃ M : MatchResult,
      matchPathToRoute false false (upper "GET") "/users/71" wTree = some M ∧
      M.node = wNode ∧ mkRoute wReg ∈ M.node.routes :=
  matchFindsRegisteredRoute [] [wReg] rootNode wTree wReg idSegs
    ["users", "71"] wNode false false "/users/71" rfl (by simp) rfl rfl rfl

/-- Counterexample for C1 as stated: with GET /users/active and GET
/users/:id both registered, the token list ["users", "active"] is a
literal instantiation of the pattern /users/:id, but requesting
/users/active returns a Match whose node holds only the /users/active
route and not the /users/:id route, because the Fixed sibling shadows the
Named child. -/
theorem literalInstantiationCanMissRoute :
    registerAll [] rootNode usersRegs = .ok usersTree ∧
    (⟨"GET", "/users/:id", 2⟩ : Reg) ∈ usersRegs ∧
    parsePattern [] "/users/:id" = .ok idSegs ∧
    instOK idSegs ["users", "active"] = true ∧
    pathTokens "/users/active" = ["users", "active"] ∧
    matchPathToRoute false false "GET" "/users/active" usersTree =
      some ceMatch ∧
    mkRoute ⟨"GET", "/users/:id", 2⟩ ∉ ceMatch.node.routes ∧
    ceMatch.node.routes = [mkRoute ⟨"GET", "/users/active", 1⟩] := by
  refine ⟨rfl, by simp [usersRegs], rfl, rfl, rfl, rfl, ?_, rfl⟩
  decide

end Goro
